import Mathlib

/-!
Verification development for the graphology graph-store specification.

The repository sources available here are the design documents
(design choices, indices overview) and two TypeScript declaration files;
the GraphStore implementation itself, the serialization layer and the
index structures are not among the source files, so they are modelled
from the specification, faithful to its words, as noted on each
definition.
-/

namespace Graphology

/-- Modelled from the spec: the three graph kinds, fixed at construction
(spec section 3, Data Model). -/
inductive Kind where
  | directed
  | undirected
  | mixed
deriving DecidableEq

/-- Modelled from the spec: a key value handed to the API boundary. The
primitives (strings, numbers, booleans, null, undefined) render as their
literal text; non-primitive values (objects, carrying arbitrary fields)
coerce to a fixed placeholder (spec invariant 1; design doc, Keys). -/
inductive KeyVal where
  | str (s : String)
  | num (n : Int)
  | boolean (b : Bool)
  | nullV
  | undef
  | obj (fields : List (String × String))
deriving DecidableEq

/-- Modelled from the spec: the explicit key-coercion function applied
once at every API boundary (spec invariant 1 and section 9); a plain
object renders as the fixed placeholder string, as in the design doc. -/
def coerceKey : KeyVal → String
  | .str s => s
  | .num n => toString n
  | .boolean b => if b then "true" else "false"
  | .nullV => "null"
  | .undef => "undefined"
  | .obj _ => "[object Object]"

/-- Modelled from the spec: the error taxonomy of section 7. -/
inductive Err where
  | notFound (message : String)
  | usage (message : String)
  | invalidArgument (message : String)
deriving DecidableEq

/-- Modelled from the spec: an edge record — source and target node
keys, fixed directedness, the informational generated flag, and an
attribute mapping (spec section 3, Edge). -/
structure Edge where
  source : String
  target : String
  directed : Bool
  generated : Bool
  attributes : List (String × String)
deriving DecidableEq

/-- Modelled from the spec: the graph store — kind and the two
multi/self-loop switches fixed at construction, node and edge
collections keyed by canonical strings, and a graph-level attribute
mapping (spec section 3). Adjacency is derived from the edge
collection in this embedding. -/
structure GraphStore where
  kind : Kind
  allowMultiEdges : Bool
  allowSelfLoops : Bool
  nodes : List (String × List (String × String))
  edges : List (String × Edge)
  graphAttributes : List (String × String)
deriving DecidableEq

instance instDecEqExceptResult {ε α : Type} [DecidableEq ε] [DecidableEq α] :
    DecidableEq (Except ε α) := fun x y =>
  match x, y with
  | .error a, .error b =>
    match decEq a b with
    | isTrue h => isTrue (by rw [h])
    | isFalse h => isFalse (fun hh => by injection hh; contradiction)
  | .error _, .ok _ => isFalse (fun hh => by cases hh)
  | .ok _, .error _ => isFalse (fun hh => by cases hh)
  | .ok a, .ok b =>
    match decEq a b with
    | isTrue h => isTrue (by rw [h])
    | isFalse h => isFalse (fun hh => by injection hh; contradiction)

/-- The empty store of a given configuration. -/
def emptyStore (kind : Kind) (allowMultiEdges allowSelfLoops : Bool) : GraphStore :=
  ⟨kind, allowMultiEdges, allowSelfLoops, [], [], []⟩

/-- Whether a canonical node key is present. -/
def hasNodeKey (g : GraphStore) (k : String) : Bool :=
  g.nodes.any (fun p => p.1 == k)

/-- Whether a canonical edge key is present. -/
def hasEdgeKey (g : GraphStore) (k : String) : Bool :=
  g.edges.any (fun p => p.1 == k)

/-- `order`: the node count, derived from the node collection. -/
def order (g : GraphStore) : Nat := g.nodes.length

/-- `size`: the edge count, derived from the edge collection. -/
def size (g : GraphStore) : Nat := g.edges.length

/-- `hasNode`, at the API boundary (coerces its key). -/
def hasNode (g : GraphStore) (k : KeyVal) : Bool := hasNodeKey g (coerceKey k)

/-- `hasEdge` in its one-argument form, at the API boundary. -/
def hasEdge (g : GraphStore) (k : KeyVal) : Bool := hasEdgeKey g (coerceKey k)

/-- Modelled from the spec: `addNode` — fails with a `UsageError` on a
duplicate key, otherwise stores the node and returns its canonical key
(spec section 4.1). All mutating operations of this embedding return
the post-call store next to the call result, so a failed call is one
whose returned store must be shown untouched. -/
def addNode (g : GraphStore) (k : KeyVal) (attrs : List (String × String)) :
    Except Err String × GraphStore :=
  let key := coerceKey k
  if hasNodeKey g key then
    (.error (.usage "addNode: node already exists."), g)
  else
    (.ok key, { g with nodes := (key, attrs) :: g.nodes })

/-- Modelled from the spec: the candidate auto-generated edge key with
index `n`. The spec fixes no format, only that generated keys are
unique within the store and stable; this embedding uses a unary
rendering of the index so distinctness is elementary. -/
def geidKey (n : Nat) : String := "_geid_" ++ String.mk (List.replicate n 'x')

/-- Modelled from the spec: an auto-generated edge key guaranteed
unique within the store (spec section 4.1): the first of
`size + 1` distinct candidates that is not an existing edge key —
by counting, one of them always is. -/
def freshEdgeKey (g : GraphStore) : String :=
  (((List.range (g.edges.length + 1)).map geidKey).find?
    (fun c => !(hasEdgeKey g c))).getD (geidKey (g.edges.length + 1))

/-- Whether an edge with this directedness already links the pair —
ordered for directed edges, unordered for undirected ones (spec
invariant 6). -/
def dupEdgeExists (g : GraphStore) (directed : Bool) (s t : String) : Bool :=
  g.edges.any (fun p =>
    p.2.directed == directed &&
      (if directed then p.2.source == s && p.2.target == t
       else (p.2.source == s && p.2.target == t) ||
            (p.2.source == t && p.2.target == s)))

/-- Modelled from the spec: the shared edge-creation path behind
`addEdge`, `addDirectedEdge` and `addUndirectedEdge` (spec section 4.1
and invariants 2 to 7): kind check, endpoint existence, self-loop and
multi-edge policy, then key resolution (user-supplied unique key or a
generated one) and insertion. Every validation happens before any
mutation, as section 7 requires. -/
def addEdgeCore (g : GraphStore) (directed : Bool) (methodName : String)
    (s t : KeyVal) (key : Option KeyVal) (attrs : List (String × String)) :
    Except Err String × GraphStore :=
  if directed && g.kind == Kind.undirected then
    (.error (.usage (methodName ++
      ": you cannot add a directed edge to an undirected graph. Use the addEdge or addUndirectedEdge method instead.")), g)
  else if !directed && g.kind == Kind.directed then
    (.error (.usage (methodName ++
      ": you cannot add an undirected edge to a directed graph. Use the addEdge or addDirectedEdge method instead.")), g)
  else
    let source := coerceKey s
    let target := coerceKey t
    if !hasNodeKey g source then
      (.error (.notFound (methodName ++ ": source node does not exist.")), g)
    else if !hasNodeKey g target then
      (.error (.notFound (methodName ++ ": target node does not exist.")), g)
    else if source == target && !g.allowSelfLoops then
      (.error (.usage (methodName ++ ": self loops are not allowed.")), g)
    else if !g.allowMultiEdges && dupEdgeExists g directed source target then
      (.error (.usage (methodName ++
        ": an edge linking these nodes already exists, and multi edges are not allowed.")), g)
    else
      match key with
      | some kv =>
        let ek := coerceKey kv
        if hasEdgeKey g ek then
          (.error (.usage (methodName ++ ": edge already exists.")), g)
        else
          (.ok ek, { g with edges := (ek, ⟨source, target, directed, false, attrs⟩) :: g.edges })
      | none =>
        let ek := freshEdgeKey g
        (.ok ek, { g with edges := (ek, ⟨source, target, directed, true, attrs⟩) :: g.edges })

/-- Modelled from the spec: `addDirectedEdge` (spec section 4.1). -/
def addDirectedEdge (g : GraphStore) (s t : KeyVal) (key : Option KeyVal)
    (attrs : List (String × String)) : Except Err String × GraphStore :=
  addEdgeCore g true "addDirectedEdge" s t key attrs

/-- Modelled from the spec: `addUndirectedEdge` (spec section 4.1). -/
def addUndirectedEdge (g : GraphStore) (s t : KeyVal) (key : Option KeyVal)
    (attrs : List (String × String)) : Except Err String × GraphStore :=
  addEdgeCore g false "addUndirectedEdge" s t key attrs

/-- Modelled from the spec: the generic `addEdge`, resolving to a
directed edge unless the store kind is undirected (spec section 4.1;
design doc, Mixed graphs and type precedence). -/
def addEdge (g : GraphStore) (s t : KeyVal) (key : Option KeyVal)
    (attrs : List (String × String)) : Except Err String × GraphStore :=
  addEdgeCore g (g.kind != Kind.undirected) "addEdge" s t key attrs

/-- Whether an edge touches the given node key at either endpoint. -/
def incident (e : Edge) (k : String) : Bool := e.source == k || e.target == k

/-- Modelled from the spec: `dropNode` — fails with `NotFoundError` on a
missing node, otherwise removes the node and, atomically, every edge
incident to it (spec invariant 8, section 4.1). -/
def dropNode (g : GraphStore) (k : KeyVal) : Except Err Unit × GraphStore :=
  let key := coerceKey k
  if !hasNodeKey g key then
    (.error (.notFound "dropNode: node does not exist."), g)
  else
    (.ok (), { g with
      nodes := g.nodes.filter (fun p => p.1 != key),
      edges := g.edges.filter (fun p => !(incident p.2 key)) })

/-- Modelled from the spec: `dropEdge` — fails with `NotFoundError` on a
missing edge, otherwise removes it (spec section 4.1). -/
def dropEdge (g : GraphStore) (k : KeyVal) : Except Err Unit × GraphStore :=
  let key := coerceKey k
  if !hasEdgeKey g key then
    (.error (.notFound "dropEdge: edge does not exist."), g)
  else
    (.ok (), { g with edges := g.edges.filter (fun p => p.1 != key) })

/-- Modelled from the spec: a full store clear (spec section 3,
Lifecycles). -/
def clear (g : GraphStore) : GraphStore :=
  { g with nodes := [], edges := [] }

/-- Set one entry of an attribute mapping, replacing any prior value. -/
def setAttr (attrs : List (String × String)) (name val : String) :
    List (String × String) :=
  (name, val) :: attrs.filter (fun p => p.1 != name)

/-- Remove one entry of an attribute mapping. -/
def removeAttr (attrs : List (String × String)) (name : String) :
    List (String × String) :=
  attrs.filter (fun p => p.1 != name)

/-- Merge a new mapping into an attribute mapping; the new entries win. -/
def mergeAttrs (attrs new : List (String × String)) :
    List (String × String) :=
  new ++ attrs.filter (fun p => !(new.any (fun q => q.1 == p.1)))

/-- Rewrite the attribute mapping of the node with the given key. -/
def updateNodeAttrs (g : GraphStore) (key : String)
    (f : List (String × String) → List (String × String)) : GraphStore :=
  { g with nodes := g.nodes.map (fun p => if p.1 == key then (p.1, f p.2) else p) }

/-- Rewrite the attribute mapping of the edge with the given key. -/
def updateEdgeAttrs (g : GraphStore) (key : String)
    (f : List (String × String) → List (String × String)) : GraphStore :=
  { g with edges := g.edges.map (fun p =>
      if p.1 == key then (p.1, { p.2 with attributes := f p.2.attributes }) else p) }

/-- Modelled from the spec: the per-node attribute mutators of section
4.1 (set, replace, merge, remove); they fail with `NotFoundError` on a
missing key and touch only the attribute mapping. `mode` selects the
mutator so all four share one checked path. -/
inductive AttrOp where
  | set (name val : String)
  | replaceAll (attrs : List (String × String))
  | merge (attrs : List (String × String))
  | remove (name : String)
deriving DecidableEq

/-- Apply one attribute mutator to a mapping. -/
def applyAttrOp (a : AttrOp) (attrs : List (String × String)) :
    List (String × String) :=
  match a with
  | .set name val => setAttr attrs name val
  | .replaceAll new => new
  | .merge new => mergeAttrs attrs new
  | .remove name => removeAttr attrs name

/-- Node attribute mutation at the API boundary. -/
def nodeAttrCall (g : GraphStore) (k : KeyVal) (a : AttrOp) :
    Except Err Unit × GraphStore :=
  let key := coerceKey k
  if !hasNodeKey g key then
    (.error (.notFound "node attribute call: node does not exist."), g)
  else
    (.ok (), updateNodeAttrs g key (applyAttrOp a))

/-- Edge attribute mutation at the API boundary. -/
def edgeAttrCall (g : GraphStore) (k : KeyVal) (a : AttrOp) :
    Except Err Unit × GraphStore :=
  let key := coerceKey k
  if !hasEdgeKey g key then
    (.error (.notFound "edge attribute call: edge does not exist."), g)
  else
    (.ok (), updateEdgeAttrs g key (applyAttrOp a))

/-- Whether an edge record answers the two-argument edge query for the
ordered pair: a directed edge from `s` to `t`, or an undirected edge
between them in either orientation. -/
def edgeMatches (e : Edge) (s t : String) : Bool :=
  if e.directed then e.source == s && e.target == t
  else (e.source == s && e.target == t) || (e.source == t && e.target == s)

/-- The any-edge-between query: whether some edge links the pair. -/
def anyEdgeBetween (g : GraphStore) (s t : KeyVal) : Bool :=
  g.edges.any (fun p => edgeMatches p.2 (coerceKey s) (coerceKey t))

/-- Modelled from the spec: `hasEdge` in its two-argument form (spec
section 4.1): it fails with `UsageError` when the store allows
multi-edges — the query is ambiguous there — unless the caller
explicitly requests any-edge-between semantics with the flag. -/
def hasEdgeBetween (g : GraphStore) (s t : KeyVal) (anyEdge : Bool) :
    Except Err Bool :=
  if g.allowMultiEdges && !anyEdge then
    .error (.usage
      "hasEdge: source and target are an ambiguous edge query on a multi graph. Request any-edge semantics or poll the edge by key instead.")
  else
    .ok (anyEdgeBetween g s t)

/-- Look an edge record up by its canonical key. -/
def getEdge (g : GraphStore) (k : String) : Option Edge :=
  (g.edges.find? (fun p => p.1 == k)).map Prod.snd

/-- Modelled from the spec: a serialized node — key and attributes
(spec section 6). -/
structure SerializedNode where
  key : String
  attributes : List (String × String)
deriving DecidableEq

/-- Modelled from the spec: a serialized edge — it always carries an
explicit key, auto-generated or not, plus source, target, the
undirected flag and attributes (spec section 6). -/
structure SerializedEdge where
  key : String
  source : String
  target : String
  undirected : Bool
  attributes : List (String × String)
deriving DecidableEq

/-- Modelled from the spec: the serialized form — ordered node and edge
sequences (spec section 6). -/
structure SerializedGraph where
  nodes : List SerializedNode
  edges : List SerializedEdge
deriving DecidableEq

/-- Modelled from the spec: `serialize` emits every node and every edge
with its stored key (spec section 6). -/
def serialize (g : GraphStore) : SerializedGraph :=
  ⟨g.nodes.map (fun p => ⟨p.1, p.2⟩),
   g.edges.map (fun p => ⟨p.1, p.2.source, p.2.target, !p.2.directed, p.2.attributes⟩)⟩

/-- Modelled from the spec: `deserialize` rebuilds a store of the given
configuration holding exactly the serialized entities under their
serialized keys (spec sections 6 and 8). The generated flag is not part
of the interchange form; rebuilt edges carry it cleared, which the spec
declares semantically irrelevant. -/
def deserialize (kind : Kind) (allowMultiEdges allowSelfLoops : Bool)
    (graphAttributes : List (String × String)) (sg : SerializedGraph) : GraphStore :=
  ⟨kind, allowMultiEdges, allowSelfLoops,
   sg.nodes.map (fun n => (n.key, n.attributes)),
   sg.edges.map (fun e => (e.key, ⟨e.source, e.target, !e.undirected, false, e.attributes⟩)),
   graphAttributes⟩

/-- The identity-relevant part of a stored edge entry: key, endpoints,
directedness and attributes (everything but the informational generated
flag). -/
def edgeIdentity (p : String × Edge) :
    String × String × String × Bool × List (String × String) :=
  (p.1, p.2.source, p.2.target, p.2.directed, p.2.attributes)

/-- The serialization round trip of spec section 8: serialize a store
and rebuild one of the same configuration from the serialized form. -/
def roundTrip (g : GraphStore) : GraphStore :=
  deserialize g.kind g.allowMultiEdges g.allowSelfLoops g.graphAttributes (serialize g)

/-- One mutation call of the public surface (spec sections 4.1 and 6);
the store states reachable from an empty store are those produced by a
sequence of these. -/
inductive Op where
  | addNode (k : KeyVal) (attrs : List (String × String))
  | addEdge (s t : KeyVal) (key : Option KeyVal) (attrs : List (String × String))
  | addDirectedEdge (s t : KeyVal) (key : Option KeyVal) (attrs : List (String × String))
  | addUndirectedEdge (s t : KeyVal) (key : Option KeyVal) (attrs : List (String × String))
  | dropNode (k : KeyVal)
  | dropEdge (k : KeyVal)
  | clear
  | nodeAttr (k : KeyVal) (a : AttrOp)
  | edgeAttr (k : KeyVal) (a : AttrOp)

/-- The store left behind by one mutation call (failed calls leave the
store they were given). -/
def step (g : GraphStore) : Op → GraphStore
  | .addNode k attrs => (addNode g k attrs).2
  | .addEdge s t key attrs => (addEdge g s t key attrs).2
  | .addDirectedEdge s t key attrs => (addDirectedEdge g s t key attrs).2
  | .addUndirectedEdge s t key attrs => (addUndirectedEdge g s t key attrs).2
  | .dropNode k => (dropNode g k).2
  | .dropEdge k => (dropEdge g k).2
  | .clear => clear g
  | .nodeAttr k a => (nodeAttrCall g k a).2
  | .edgeAttr k a => (edgeAttrCall g k a).2

/-- Run a sequence of mutation calls. -/
def applyOps (g : GraphStore) (ops : List Op) : GraphStore :=
  ops.foldl step g

/-- The no-dangling-edge check: every edge endpoint names an existing
node (spec invariant 8). -/
def noDangling (g : GraphStore) : Bool :=
  g.edges.all (fun p => hasNodeKey g p.2.source && hasNodeKey g p.2.target)

/-- The structural store invariant this development tracks: no dangling
edge, and pairwise-distinct edge keys (spec invariants 3 and 8). -/
def StoreInv (g : GraphStore) : Prop :=
  noDangling g = true ∧ (g.edges.map Prod.fst).Nodup

/-- Modelled from the spec: the union-find state of the Connected
Components Index, a map from node key to component root. Compression is
eager (roots are rewritten at union time), which the spec's
path-compressed union-find makes observationally identical: `componentOf`
answers are the same partition. -/
def ufInit (g : GraphStore) : List (String × String) :=
  g.nodes.map (fun p => (p.1, p.1))

/-- The component root recorded for a key (the key itself when it is
not in the map). -/
def ufFind (m : List (String × String)) (k : String) : String :=
  ((m.find? (fun p => p.1 == k)).map Prod.snd).getD k

/-- Modelled from the spec: one union step over an edge's endpoints —
edge directionality ignored, connectivity is computed as if undirected
(spec section 4.4). -/
def ufUnion (m : List (String × String)) (s t : String) : List (String × String) :=
  let rs := ufFind m s
  let rt := ufFind m t
  if rs == rt then m
  else m.map (fun p => (p.1, if p.2 == rs then rt else p.2))

/-- Modelled from the spec: the Connected Components Index root map,
built once via union-find over the store's edges (spec section 4.4). -/
def componentMap (g : GraphStore) : List (String × String) :=
  g.edges.foldl (fun m p => ufUnion m p.2.source p.2.target) (ufInit g)

/-- Modelled from the spec: `componentOf(nodeKey) -> componentId` (spec
section 4.4). -/
def componentOf (g : GraphStore) (k : KeyVal) : String :=
  ufFind (componentMap g) (coerceKey k)

/-- Whether the union-find map carries an entry for a key. -/
def keyPresent (m : List (String × String)) (x : String) : Prop :=
  (m.find? (fun p => p.1 == x)).isSome = true

/-- Two node keys joined by one edge of the store, in either
orientation and of either directedness. -/
def adjacentIn (g : GraphStore) (u v : String) : Prop :=
  ∃ p ∈ g.edges, (p.2.source = u ∧ p.2.target = v) ∨ (p.2.source = v ∧ p.2.target = u)

/-- Two node keys joined by a path of edges of any directedness. -/
def connectedIn (g : GraphStore) : String → String → Prop :=
  Relation.ReflTransGen (adjacentIn g)

/-- Bump the entry at an index of an aggregate array by a delta
(out-of-range indices are untouched). -/
def adjustAt (l : List Int) (i : Nat) (d : Int) : List Int :=
  l.set i (l.getD i 0 + d)

/-- Modelled from the spec: the aggregated edge weight from node `n` to
the members of community `c` other than `n` itself, read off the node's
neighbor list in O(degree(n)) (spec section 4.3,
`neighborCommunityWeights`). -/
def communityWeight (neighborhoods : List (List (Nat × Int)))
    (belongings : List Nat) (n c : Nat) : Int :=
  (((neighborhoods.getD n []).filter
      (fun q => q.1 != n && belongings.getD q.1 0 == c)).map Prod.snd).sum

/-- Modelled from the spec: the undirected Community Structure Index —
per node a neighbor list with weights (self excluded), self-loop weight,
total weighted degree and current community; per community the sum of
member degrees and the internal edge weight (spec sections 4.3 and 2). -/
structure UndirectedLouvainIndex where
  neighborhoods : List (List (Nat × Int))
  loops : List Int
  degrees : List Int
  belongings : List Nat
  totalWeights : List Int
  internalWeights : List Int
deriving DecidableEq

/-- Modelled from the spec: `moveNode(node, newCommunity)` of the
undirected variant — removes the node's degree and its edge weight into
its old community (self-loop included) from that community's sums, and
adds its degree and its edge weight into the new community to the new
community's sums, in O(degree(node)) (spec section 4.3). -/
def UndirectedLouvainIndex.moveNode (ix : UndirectedLouvainIndex)
    (n c : Nat) : UndirectedLouvainIndex :=
  let o := ix.belongings.getD n 0
  let d := ix.degrees.getD n 0
  let loop := ix.loops.getD n 0
  let wOld := communityWeight ix.neighborhoods ix.belongings n o
  let wNew := communityWeight ix.neighborhoods ix.belongings n c
  { ix with
    belongings := ix.belongings.set n c
    totalWeights := adjustAt (adjustAt ix.totalWeights o (-d)) c d
    internalWeights :=
      adjustAt (adjustAt ix.internalWeights o (-(wOld + loop))) c (wNew + loop) }

/-- Modelled from the spec: the directed Community Structure Index —
separate in- and out-neighbor lists, and separate in-degree and
out-degree sums per node and per community (spec section 4.3). -/
structure DirectedLouvainIndex where
  outNeighborhoods : List (List (Nat × Int))
  inNeighborhoods : List (List (Nat × Int))
  loops : List Int
  inDegrees : List Int
  outDegrees : List Int
  belongings : List Nat
  totalInWeights : List Int
  totalOutWeights : List Int
  internalWeights : List Int
deriving DecidableEq

/-- Modelled from the spec: `moveNode(node, newCommunity)` of the
directed variant — in- and out-degree sums move separately, and the
internal weight moves the edge weight between the node and the community
in both directions plus the self-loop (spec section 4.3). -/
def DirectedLouvainIndex.moveNode (ix : DirectedLouvainIndex)
    (n c : Nat) : DirectedLouvainIndex :=
  let o := ix.belongings.getD n 0
  let din := ix.inDegrees.getD n 0
  let dout := ix.outDegrees.getD n 0
  let loop := ix.loops.getD n 0
  let wOld := communityWeight ix.outNeighborhoods ix.belongings n o +
    communityWeight ix.inNeighborhoods ix.belongings n o
  let wNew := communityWeight ix.outNeighborhoods ix.belongings n c +
    communityWeight ix.inNeighborhoods ix.belongings n c
  { ix with
    belongings := ix.belongings.set n c
    totalInWeights := adjustAt (adjustAt ix.totalInWeights o (-din)) c din
    totalOutWeights := adjustAt (adjustAt ix.totalOutWeights o (-dout)) c dout
    internalWeights :=
      adjustAt (adjustAt ix.internalWeights o (-(wOld + loop))) c (wNew + loop) }

/-- A two-node simple mixed store, used to evaluate the theorems on
concrete inputs. -/
def mixedSimpleStore : GraphStore :=
  ⟨Kind.mixed, false, false, [("a", []), ("b", [])], [], []⟩

/-- A two-node simple store of undirected kind. -/
def undirectedSimpleStore : GraphStore :=
  ⟨Kind.undirected, false, false, [("a", []), ("b", [])], [], []⟩

/-- A two-node store allowing multi edges. -/
def multiStore : GraphStore :=
  ⟨Kind.mixed, true, true, [("a", []), ("b", [])], [], []⟩

/-- The three-node store of the spec's connectivity scenario: nodes A,
B, C and directed edges from A to B and from B to C. -/
def pathStoreABC : GraphStore :=
  ⟨Kind.directed, false, false, [("A", []), ("B", []), ("C", [])],
   [("e1", ⟨"A", "B", true, false, []⟩), ("e2", ⟨"B", "C", true, false, []⟩)], []⟩

/-- A small concrete undirected community index: two nodes joined by a
weight-one edge, each in its own singleton community. -/
def smallUndirectedIndex : UndirectedLouvainIndex :=
  ⟨[[(1, 1)], [(0, 1)]], [0, 0], [1, 1], [0, 1], [1, 1], [0, 0]⟩

/-- A small concrete directed community index: a weight-one edge from
node 0 to node 1, each node in its own singleton community. -/
def smallDirectedIndex : DirectedLouvainIndex :=
  ⟨[[(1, 1)], []], [[], [(0, 1)]], [0, 0], [0, 1], [1, 0], [0, 1],
   [0, 1], [1, 0], [0, 0]⟩

theorem hasNodeKey_iff (g : GraphStore) (k : String) :
    hasNodeKey g k = true ↔ ∃ p ∈ g.nodes, p.1 = k := by
  simp [hasNodeKey]

theorem hasEdgeKey_iff (g : GraphStore) (k : String) :
    hasEdgeKey g k = true ↔ ∃ p ∈ g.edges, p.1 = k := by
  simp [hasEdgeKey]

theorem noDangling_iff (g : GraphStore) :
    noDangling g = true ↔
      ∀ p ∈ g.edges, hasNodeKey g p.2.source = true ∧ hasNodeKey g p.2.target = true := by
  simp [noDangling]

theorem geidKey_injective : Function.Injective geidKey := by
  intro m n h
  have hlen := congrArg String.length h
  simpa [geidKey] using hlen

/-- The generated edge key really is unused in the store. -/
theorem freshEdgeKey_unused (g : GraphStore) :
    hasEdgeKey g (freshEdgeKey g) = false := by
  unfold freshEdgeKey
  rcases hfind : (((List.range (g.edges.length + 1)).map geidKey).find?
      (fun c => !(hasEdgeKey g c))) with _ | c
  · exfalso
    have hall := List.find?_eq_none.mp hfind
    have hsub : ((List.range (g.edges.length + 1)).map geidKey) ⊆ g.edges.map Prod.fst := by
      intro c hc
      have hc2 := hall c hc
      simp only [Bool.not_eq_true] at hc2
      have hc3 : hasEdgeKey g c = true := by simpa using hc2
      rcases (hasEdgeKey_iff g c).mp hc3 with ⟨p, hp, hpk⟩
      exact hpk ▸ List.mem_map_of_mem Prod.fst hp
    have hnd : ((List.range (g.edges.length + 1)).map geidKey).Nodup :=
      (List.nodup_range _).map geidKey_injective
    have hle := (List.subperm_of_subset hnd hsub).length_le
    simp at hle
  · have hc := List.find?_some hfind
    simp only [Option.getD_some]
    simpa using hc

theorem any_map_invariant {α : Type} (l : List α) (f : α → α)
    (q : α → Bool) (hq : ∀ p, q (f p) = q p) :
    (l.map f).any q = l.any q := by
  induction l with
  | nil => rfl
  | cons h t ih => simp [hq, ih]

theorem map_fst_map_preserve {α β : Type} (l : List (α × β)) (f : α × β → α × β)
    (hf : ∀ p, (f p).1 = p.1) :
    (l.map f).map Prod.fst = l.map Prod.fst := by
  induction l with
  | nil => rfl
  | cons h t ih => simp [hf, ih]

theorem nodup_fst_key_unique {α β : Type} {l : List (α × β)}
    (h : (l.map Prod.fst).Nodup) {a : α} {b c : β}
    (h1 : (a, b) ∈ l) (h2 : (a, c) ∈ l) : b = c := by
  induction l with
  | nil => cases h1
  | cons x t ih =>
    simp only [List.map_cons, List.nodup_cons] at h
    rcases List.mem_cons.mp h1 with h1 | h1
    · rcases List.mem_cons.mp h2 with h2 | h2
      · rw [← h1] at h2
        exact (Prod.mk.injEq _ _ _ _ ▸ h2).2.symm
      · exfalso
        apply h.1
        have : x.1 = a := by rw [← h1]
        rw [this]
        exact List.mem_map_of_mem Prod.fst h2
    · rcases List.mem_cons.mp h2 with h2 | h2
      · exfalso
        apply h.1
        have : x.1 = a := by rw [← h2]
        rw [this]
        exact List.mem_map_of_mem Prod.fst h1
      · exact ih h.2 h1 h2

theorem length_filter_not_add {α : Type} (l : List α) (p : α → Bool) :
    (l.filter (fun a => !(p a))).length + (l.filter p).length = l.length := by
  induction l with
  | nil => rfl
  | cons a t ih =>
    by_cases h : p a = true <;> simp [List.filter_cons, h] <;> omega

theorem hasNodeKey_updateNodeAttrs (g : GraphStore) (key : String)
    (f : List (String × String) → List (String × String)) (s : String) :
    hasNodeKey (updateNodeAttrs g key f) s = hasNodeKey g s := by
  unfold hasNodeKey updateNodeAttrs
  dsimp only
  apply any_map_invariant
  intro p
  dsimp only
  split <;> rfl

theorem storeInv_addNode (g : GraphStore) (k : KeyVal)
    (attrs : List (String × String)) (h : StoreInv g) :
    StoreInv (addNode g k attrs).2 := by
  unfold addNode
  dsimp only
  split
  · exact h
  · obtain ⟨hd, hn⟩ := h
    refine ⟨?_, hn⟩
    rw [noDangling_iff] at hd ⊢
    intro p hp
    have := hd p hp
    constructor <;> · simp [hasNodeKey] at this ⊢ ; tauto

theorem storeInv_addEdgeCore (g : GraphStore) (d : Bool) (name : String)
    (s t : KeyVal) (key : Option KeyVal) (attrs : List (String × String))
    (h : StoreInv g) :
    StoreInv (addEdgeCore g d name s t key attrs).2 := by
  obtain ⟨hd, hn⟩ := h
  unfold addEdgeCore
  dsimp only
  split
  · exact ⟨hd, hn⟩
  split
  · exact ⟨hd, hn⟩
  split
  · exact ⟨hd, hn⟩
  split
  · exact ⟨hd, hn⟩
  split
  · exact ⟨hd, hn⟩
  split
  · exact ⟨hd, hn⟩
  next hks hkt _ _ =>
  have hs : hasNodeKey g (coerceKey s) = true := by
    simpa using hks
  have ht : hasNodeKey g (coerceKey t) = true := by
    simpa using hkt
  split
  next kv =>
    split
    · exact ⟨hd, hn⟩
    next hdup =>
      have hfresh : hasEdgeKey g (coerceKey kv) = false := by
        simpa using hdup
      constructor
      · rw [noDangling_iff] at hd ⊢
        intro p hp
        rcases List.mem_cons.mp hp with hp | hp
        · subst hp
          exact ⟨hs, ht⟩
        · exact hd p hp
      · simp only [List.map_cons, List.nodup_cons]
        refine ⟨?_, hn⟩
        intro hmem
        rcases List.mem_map.mp hmem with ⟨p, hp, hpk⟩
        have : hasEdgeKey g (coerceKey kv) = true :=
          (hasEdgeKey_iff g _).mpr ⟨p, hp, hpk⟩
        rw [this] at hfresh
        cases hfresh
  · have hfresh := freshEdgeKey_unused g
    constructor
    · rw [noDangling_iff] at hd ⊢
      intro p hp
      rcases List.mem_cons.mp hp with hp | hp
      · subst hp
        exact ⟨hs, ht⟩
      · exact hd p hp
    · simp only [List.map_cons, List.nodup_cons]
      refine ⟨?_, hn⟩
      intro hmem
      rcases List.mem_map.mp hmem with ⟨p, hp, hpk⟩
      have : hasEdgeKey g (freshEdgeKey g) = true :=
        (hasEdgeKey_iff g _).mpr ⟨p, hp, hpk⟩
      rw [this] at hfresh
      cases hfresh

theorem storeInv_dropNode (g : GraphStore) (k : KeyVal) (h : StoreInv g) :
    StoreInv (dropNode g k).2 := by
  obtain ⟨hd, hn⟩ := h
  unfold dropNode
  dsimp only
  split
  · exact ⟨hd, hn⟩
  constructor
  · rw [noDangling_iff] at hd ⊢
    intro p hp
    have hp2 := List.mem_filter.mp hp
    have hne := hp2.2
    simp only [incident, Bool.not_eq_true', Bool.or_eq_false_iff, beq_eq_false_iff_ne] at hne
    have := hd p hp2.1
    constructor
    · rcases (hasNodeKey_iff g _).mp this.1 with ⟨q, hq, hqk⟩
      apply (hasNodeKey_iff _ _).mpr
      refine ⟨q, List.mem_filter.mpr ⟨hq, ?_⟩, hqk⟩
      simp only [bne_iff_ne, ne_eq]
      rw [hqk]
      exact hne.1
    · rcases (hasNodeKey_iff g _).mp this.2 with ⟨q, hq, hqk⟩
      apply (hasNodeKey_iff _ _).mpr
      refine ⟨q, List.mem_filter.mpr ⟨hq, ?_⟩, hqk⟩
      simp only [bne_iff_ne, ne_eq]
      rw [hqk]
      exact hne.2
  · exact ((List.filter_sublist g.edges).map Prod.fst).nodup hn

theorem storeInv_dropEdge (g : GraphStore) (k : KeyVal) (h : StoreInv g) :
    StoreInv (dropEdge g k).2 := by
  obtain ⟨hd, hn⟩ := h
  unfold dropEdge
  dsimp only
  split
  · exact ⟨hd, hn⟩
  constructor
  · rw [noDangling_iff] at hd ⊢
    intro p hp
    have hp2 := List.mem_filter.mp hp
    exact hd p hp2.1
  · exact ((List.filter_sublist g.edges).map Prod.fst).nodup hn

theorem storeInv_clear (g : GraphStore) : StoreInv (clear g) := by
  constructor
  · rfl
  · exact List.nodup_nil

theorem storeInv_nodeAttrCall (g : GraphStore) (k : KeyVal) (a : AttrOp)
    (h : StoreInv g) : StoreInv (nodeAttrCall g k a).2 := by
  obtain ⟨hd, hn⟩ := h
  unfold nodeAttrCall
  dsimp only
  split
  · exact ⟨hd, hn⟩
  constructor
  · rw [noDangling_iff] at hd ⊢
    intro p hp
    have := hd p hp
    rw [hasNodeKey_updateNodeAttrs, hasNodeKey_updateNodeAttrs]
    exact this
  · exact hn

theorem storeInv_edgeAttrCall (g : GraphStore) (k : KeyVal) (a : AttrOp)
    (h : StoreInv g) : StoreInv (edgeAttrCall g k a).2 := by
  obtain ⟨hd, hn⟩ := h
  unfold edgeAttrCall
  dsimp only
  split
  · exact ⟨hd, hn⟩
  constructor
  · rw [noDangling_iff] at hd ⊢
    intro p hp
    unfold updateEdgeAttrs at hp ⊢
    dsimp only at hp ⊢
    rcases List.mem_map.mp hp with ⟨q, hq, hqe⟩
    have := hd q hq
    have hsrc : p.2.source = q.2.source := by
      rw [← hqe]
      split <;> rfl
    have htgt : p.2.target = q.2.target := by
      rw [← hqe]
      split <;> rfl
    rw [hsrc, htgt]
    exact this
  · unfold updateEdgeAttrs
    dsimp only
    rw [map_fst_map_preserve g.edges _ (fun p => by split <;> rfl)]
    exact hn

theorem storeInv_step (g : GraphStore) (o : Op) (h : StoreInv g) :
    StoreInv (step g o) := by
  cases o with
  | addNode k attrs => exact storeInv_addNode g k attrs h
  | addEdge s t key attrs => exact storeInv_addEdgeCore g _ _ s t key attrs h
  | addDirectedEdge s t key attrs => exact storeInv_addEdgeCore g _ _ s t key attrs h
  | addUndirectedEdge s t key attrs => exact storeInv_addEdgeCore g _ _ s t key attrs h
  | dropNode k => exact storeInv_dropNode g k h
  | dropEdge k => exact storeInv_dropEdge g k h
  | clear => exact storeInv_clear g
  | nodeAttr k a => exact storeInv_nodeAttrCall g k a h
  | edgeAttr k a => exact storeInv_edgeAttrCall g k a h

theorem storeInv_applyOps (ops : List Op) (g : GraphStore) (h : StoreInv g) :
    StoreInv (applyOps g ops) := by
  induction ops generalizing g with
  | nil => exact h
  | cons o rest ih => exact ih (step g o) (storeInv_step g o h)

theorem storeInv_empty (kind : Kind) (m s : Bool) :
    StoreInv (emptyStore kind m s) :=
  ⟨rfl, List.nodup_nil⟩

theorem incident_key_is_node (g : GraphStore) (hd : noDangling g = true)
    {ek : String} {e : Edge} (hmem : (ek, e) ∈ g.edges) {key : String}
    (hinc : incident e key = true) : hasNodeKey g key = true := by
  have hends := (noDangling_iff g).mp hd (ek, e) hmem
  simp only [incident, Bool.or_eq_true, beq_iff_eq] at hinc
  rcases hinc with hinc | hinc
  · rw [← hinc]
    exact hends.1
  · rw [← hinc]
    exact hends.2

theorem dropNode_drops_incident (g : GraphStore) (k : KeyVal)
    (hInv : StoreInv g) (ek : String) (e : Edge) (hmem : (ek, e) ∈ g.edges)
    (hinc : incident e (coerceKey k) = true) :
    hasEdge (dropNode g k).2 (.str ek) = false := by
  obtain ⟨hd, hn⟩ := hInv
  unfold dropNode
  dsimp only
  split
  next hmiss =>
    exfalso
    have := incident_key_is_node g hd hmem hinc
    rw [this] at hmiss
    cases hmiss
  · show hasEdgeKey _ ek = false
    unfold hasEdgeKey
    dsimp only
    rw [Bool.eq_false_iff]
    intro habs
    simp only [List.any_eq_true, beq_iff_eq] at habs
    rcases habs with ⟨p, hp, hpk⟩
    have hp2 := List.mem_filter.mp hp
    have hpe : p = (ek, p.2) := by
      rw [← hpk]
    have hmem2 : (ek, p.2) ∈ g.edges := hpe ▸ hp2.1
    have : p.2 = e := nodup_fst_key_unique hn hmem2 hmem
    have hni := hp2.2
    rw [this] at hni
    rw [hinc] at hni
    cases hni

theorem dropNode_size_eq (g : GraphStore) (k : KeyVal) (hInv : StoreInv g) :
    size (dropNode g k).2 +
      (g.edges.filter (fun p => incident p.2 (coerceKey k))).length = size g := by
  obtain ⟨hd, _⟩ := hInv
  unfold dropNode
  dsimp only
  split
  next hmiss =>
    have hempty : g.edges.filter (fun p => incident p.2 (coerceKey k)) = [] := by
      rw [List.filter_eq_nil_iff]
      intro p hp habs
      have := incident_key_is_node g hd (show (p.1, p.2) ∈ g.edges by simpa using hp) habs
      rw [this] at hmiss
      cases hmiss
    rw [hempty]
    rfl
  · unfold size
    dsimp only
    exact length_filter_not_add g.edges (fun p => incident p.2 (coerceKey k))

/-- C1: in every reachable store state (any sequence of mutation calls run
from an empty store of any configuration) every edge's source and target
keys reference existing nodes, and this is preserved by every further
mutation; moreover dropping a node drops every edge incident to it —
afterwards `hasEdge` is false on each such edge's key, and `size`
decreases by exactly the number of edges that were incident to the
node. -/
theorem reachable_noDangling_and_dropNode_cascade
    (kind : Kind) (multi selfLoops : Bool) (ops : List Op) (o : Op) (k : KeyVal) :
    noDangling (applyOps (emptyStore kind multi selfLoops) ops) = true ∧
    noDangling (step (applyOps (emptyStore kind multi selfLoops) ops) o) = true ∧
    (∀ ek e, (ek, e) ∈ (applyOps (emptyStore kind multi selfLoops) ops).edges →
      incident e (coerceKey k) = true →
      hasEdge (dropNode (applyOps (emptyStore kind multi selfLoops) ops) k).2 (.str ek) = false) ∧
    size (dropNode (applyOps (emptyStore kind multi selfLoops) ops) k).2 +
      ((applyOps (emptyStore kind multi selfLoops) ops).edges.filter
        (fun p => incident p.2 (coerceKey k))).length =
      size (applyOps (emptyStore kind multi selfLoops) ops) := by
  have hInv := storeInv_applyOps ops _ (storeInv_empty kind multi selfLoops)
  refine ⟨hInv.1, (storeInv_step _ o hInv).1, ?_, dropNode_size_eq _ k hInv⟩
  intro ek e hmem hinc
  exact dropNode_drops_incident _ k hInv ek e hmem hinc

theorem addEdgeCore_shape (g : GraphStore) (d : Bool) (name : String)
    (s t : KeyVal) (key : Option KeyVal) (attrs : List (String × String)) :
    (addEdgeCore g d name s t key attrs).2 = g ∨
      ∃ ek, (addEdgeCore g d name s t key attrs).1 = .ok ek := by
  unfold addEdgeCore
  dsimp only
  split
  · exact .inl rfl
  split
  · exact .inl rfl
  split
  · exact .inl rfl
  split
  · exact .inl rfl
  split
  · exact .inl rfl
  split
  · exact .inl rfl
  split
  · split
    · exact .inl rfl
    · exact .inr ⟨_, rfl⟩
  · exact .inr ⟨_, rfl⟩

/-- C2: an edge-creation call that fails, for any reason, leaves the
store exactly as it was before the call; in particular on a store of
directed kind the undirected-edge creation method fails with a
`UsageError` and leaves the store — hence its order and size —
unchanged. -/
theorem edge_creation_failure_leaves_store_unchanged
    (g : GraphStore) (s t : KeyVal) (key : Option KeyVal)
    (attrs : List (String × String)) :
    (∀ (d : Bool) (name : String) (e : Err),
      (addEdgeCore g d name s t key attrs).1 = .error e →
      (addEdgeCore g d name s t key attrs).2 = g) ∧
    (g.kind = Kind.directed →
      (∃ m, (addUndirectedEdge g s t key attrs).1 = .error (.usage m)) ∧
      (addUndirectedEdge g s t key attrs).2 = g ∧
      order (addUndirectedEdge g s t key attrs).2 = order g ∧
      size (addUndirectedEdge g s t key attrs).2 = size g) := by
  constructor
  · intro d name e h
    rcases addEdgeCore_shape g d name s t key attrs with h2 | ⟨ek, h2⟩
    · exact h2
    · rw [h2] at h
      cases h
  · intro hk
    unfold addUndirectedEdge addEdgeCore
    simp only [hk]
    exact ⟨⟨_, rfl⟩, rfl, rfl, rfl⟩

/-- Witness for C2: on the concrete empty directed store, the failed
undirected-edge creation leaves the store equal to itself. -/
theorem edge_creation_failure_leaves_store_unchanged_witness :
    (emptyStore Kind.directed false false).kind = Kind.directed ∧
    (addUndirectedEdge (emptyStore Kind.directed false false)
      (.str "a") (.str "b") none []).2 = emptyStore Kind.directed false false :=
  ⟨rfl, ((edge_creation_failure_leaves_store_unchanged
    (emptyStore Kind.directed false false) (.str "a") (.str "b") none []).2 rfl).2.1⟩

theorem addEdgeCore_cases (g : GraphStore) (d : Bool) (name : String)
    (s t : KeyVal) (key : Option KeyVal) (attrs : List (String × String)) :
    (∃ e, addEdgeCore g d name s t key attrs = (.error e, g)) ∨
    (∃ ek b, addEdgeCore g d name s t key attrs =
      (.ok ek, { g with edges :=
        (ek, ⟨coerceKey s, coerceKey t, d, b, attrs⟩) :: g.edges })) := by
  unfold addEdgeCore
  dsimp only
  split
  · exact .inl ⟨_, rfl⟩
  split
  · exact .inl ⟨_, rfl⟩
  split
  · exact .inl ⟨_, rfl⟩
  split
  · exact .inl ⟨_, rfl⟩
  split
  · exact .inl ⟨_, rfl⟩
  split
  · exact .inl ⟨_, rfl⟩
  split
  · split
    · exact .inl ⟨_, rfl⟩
    · exact .inr ⟨_, false, rfl⟩
  · exact .inr ⟨_, true, rfl⟩

theorem addEdgeCore_success (g : GraphStore) (d : Bool) (name : String)
    (s t : KeyVal) (key : Option KeyVal) (attrs : List (String × String))
    (ek : String) (h : (addEdgeCore g d name s t key attrs).1 = .ok ek) :
    ∃ b, (addEdgeCore g d name s t key attrs).2 =
      { g with edges := (ek, ⟨coerceKey s, coerceKey t, d, b, attrs⟩) :: g.edges } := by
  rcases addEdgeCore_cases g d name s t key attrs with ⟨e, h2⟩ | ⟨ek2, b, h2⟩
  · rw [h2] at h
    cases h
  · rw [h2] at h ⊢
    cases h
    exact ⟨b, rfl⟩

/-- C3: a successful generic `addEdge` stores under the returned key an
edge that is directed exactly when the store's kind is not undirected:
on a mixed store it is always directed, on an undirected store always
undirected. -/
theorem addEdge_resolves_to_directed_by_kind (g : GraphStore) (s t : KeyVal)
    (key : Option KeyVal) (attrs : List (String × String)) (ek : String)
    (h : (addEdge g s t key attrs).1 = .ok ek) :
    ∃ e, getEdge (addEdge g s t key attrs).2 ek = some e ∧
      e.directed = (g.kind != Kind.undirected) ∧
      (g.kind = Kind.mixed → e.directed = true) ∧
      (g.kind = Kind.undirected → e.directed = false) := by
  rcases addEdgeCore_success g (g.kind != Kind.undirected) "addEdge" s t key attrs ek h
    with ⟨b, h2⟩
  unfold addEdge
  rw [h2]
  refine ⟨⟨coerceKey s, coerceKey t, g.kind != Kind.undirected, b, attrs⟩, ?_, rfl, ?_, ?_⟩
  · unfold getEdge
    rw [List.find?_cons_of_pos _ (by simp)]
    rfl
  · intro hk
    rw [hk]
    rfl
  · intro hk
    rw [hk]
    rfl

/-- C4 counterexample: on a store of undirected kind holding nodes a
and b, `addDirectedEdge(a, b)` fails (the kind rejects directed edges),
so the subsequent two-argument `hasEdge(a, b)` does not return true —
the claim as stated, quantified over every store with both nodes
present, is false. -/
theorem addDirectedEdge_then_hasEdge_counterexample :
    hasNode undirectedSimpleStore (.str "a") = true ∧
    hasNode undirectedSimpleStore (.str "b") = true ∧
    ¬ (hasEdgeBetween (addDirectedEdge undirectedSimpleStore
        (.str "a") (.str "b") none []).2 (.str "a") (.str "b") false =
      .ok true) := by
  refine ⟨rfl, by decide, by decide⟩

/-- C4 amended: for every pair of keys whose nodes both exist, if the
store does not allow multi-edges (so the two-argument `hasEdge` form is
not rejected as ambiguous) and the `addDirectedEdge` call succeeds
returning a key, then two-argument `hasEdge(source, target)` returns
true and the returned key round-trips through `hasEdge`. -/
theorem addDirectedEdge_success_hasEdge (g : GraphStore) (s t : KeyVal)
    (key : Option KeyVal) (attrs : List (String × String)) (ek : String)
    (hm : g.allowMultiEdges = false)
    (h : (addDirectedEdge g s t key attrs).1 = .ok ek) :
    hasEdgeBetween (addDirectedEdge g s t key attrs).2 s t false = .ok true ∧
    hasEdge (addDirectedEdge g s t key attrs).2 (.str ek) = true := by
  rcases addEdgeCore_success g true "addDirectedEdge" s t key attrs ek h with ⟨b, h2⟩
  unfold addDirectedEdge
  rw [h2]
  constructor
  · simp [hasEdgeBetween, hm, anyEdgeBetween, edgeMatches]
  · simp [hasEdge, coerceKey, hasEdgeKey]

/-- Witness for the amended C4: on the concrete two-node mixed store
the call succeeds and both `hasEdge` forms answer true. -/
theorem addDirectedEdge_success_hasEdge_witness :
    hasEdgeBetween (addDirectedEdge mixedSimpleStore (.str "a") (.str "b")
      (some (.str "e1")) []).2 (.str "a") (.str "b") false = .ok true ∧
    hasEdge (addDirectedEdge mixedSimpleStore (.str "a") (.str "b")
      (some (.str "e1")) []).2 (.str "e1") = true :=
  addDirectedEdge_success_hasEdge mixedSimpleStore (.str "a") (.str "b")
    (some (.str "e1")) [] "e1" rfl (by rfl)

/-- Witness for C3: on the concrete two-node mixed store, `addEdge`
succeeds with the supplied key and the stored edge is directed. -/
theorem addEdge_resolves_to_directed_by_kind_witness :
    ∃ e, getEdge (addEdge mixedSimpleStore (.str "a") (.str "b")
        (some (.str "e1")) []).2 "e1" = some e ∧
      e.directed = (mixedSimpleStore.kind != Kind.undirected) ∧
      (mixedSimpleStore.kind = Kind.mixed → e.directed = true) ∧
      (mixedSimpleStore.kind = Kind.undirected → e.directed = false) :=
  addEdge_resolves_to_directed_by_kind mixedSimpleStore (.str "a") (.str "b")
    (some (.str "e1")) [] "e1" (by rfl)

/-- C5: deserializing the serialized form of any store yields a store
with the same order, the same size, identical node keys and attribute
mappings, and identical edge keys, endpoints, directedness and
attribute mappings; the serialized form carries every edge's key —
auto-generated ones included — so no edge identity is lost. -/
theorem serialize_deserialize_roundtrip (g : GraphStore) :
    order (roundTrip g) = order g ∧
    size (roundTrip g) = size g ∧
    (roundTrip g).nodes = g.nodes ∧
    (roundTrip g).edges.map edgeIdentity = g.edges.map edgeIdentity ∧
    (serialize g).edges.map SerializedEdge.key = g.edges.map Prod.fst := by
  refine ⟨?_, ?_, ?_, ?_, ?_⟩
  · simp [roundTrip, serialize, deserialize, order]
  · simp [roundTrip, serialize, deserialize, size]
  · show (roundTrip g).nodes = g.nodes
    unfold roundTrip serialize deserialize
    dsimp only
    rw [List.map_map]
    exact List.map_id g.nodes
  · unfold roundTrip serialize deserialize edgeIdentity
    dsimp only
    rw [List.map_map, List.map_map]
    apply List.map_congr_left
    intro p _
    simp
  · unfold serialize
    dsimp only
    rw [List.map_map]
    rfl

/-- C8: the two-argument `hasEdge` fails with a `UsageError` on a store
that allows multi-edges unless any-edge-between semantics is requested,
and returns a boolean without error on a store that does not. -/
theorem hasEdgeBetween_multi_ambiguity (g : GraphStore) (s t : KeyVal) :
    (g.allowMultiEdges = true →
      (∃ m, hasEdgeBetween g s t false = .error (.usage m)) ∧
      hasEdgeBetween g s t true = .ok (anyEdgeBetween g s t)) ∧
    (g.allowMultiEdges = false →
      hasEdgeBetween g s t false = .ok (anyEdgeBetween g s t)) := by
  constructor
  · intro hm
    unfold hasEdgeBetween
    rw [hm]
    exact ⟨⟨_, rfl⟩, rfl⟩
  · intro hm
    unfold hasEdgeBetween
    rw [hm]
    rfl

/-- Witness for C8: the ambiguity error on a concrete multi store and
the error-free boolean on a concrete simple store. -/
theorem hasEdgeBetween_multi_ambiguity_witness :
    (∃ m, hasEdgeBetween multiStore (.str "a") (.str "b") false =
      .error (.usage m)) ∧
    hasEdgeBetween mixedSimpleStore (.str "a") (.str "b") false =
      .ok (anyEdgeBetween mixedSimpleStore (.str "a") (.str "b")) :=
  ⟨((hasEdgeBetween_multi_ambiguity multiStore (.str "a") (.str "b")).1 rfl).1,
   (hasEdgeBetween_multi_ambiguity mixedSimpleStore (.str "a") (.str "b")).2 rfl⟩

/-- C9: the key-coercion function renders every non-primitive key value
as the fixed placeholder string, so any two non-primitive key values
coerce to the same canonical key and address the same entity in any
store. -/
theorem coerce_nonprimitive_placeholder (fields fields2 : List (String × String))
    (g : GraphStore) :
    coerceKey (.obj fields) = "[object Object]" ∧
    coerceKey (.obj fields) = coerceKey (.obj fields2) ∧
    hasNode g (.obj fields) = hasNode g (.obj fields2) ∧
    hasEdge g (.obj fields) = hasEdge g (.obj fields2) :=
  ⟨rfl, rfl, rfl, rfl⟩

/-- C10: key coercion is idempotent — re-coercing a canonical key
changes nothing and a string key is left unchanged — so the string key
returned by a creation call addresses exactly the entity the call
created. -/
theorem coerceKey_idempotent_and_addresses (k : KeyVal) (s : String)
    (g : GraphStore) (attrs : List (String × String)) (r : String)
    (h : (addNode g k attrs).1 = .ok r) :
    coerceKey (.str (coerceKey k)) = coerceKey k ∧
    coerceKey (.str s) = s ∧
    hasNode (addNode g k attrs).2 (.str r) = true := by
  refine ⟨rfl, rfl, ?_⟩
  unfold addNode at h ⊢
  dsimp only at h ⊢
  by_cases hc : hasNodeKey g (coerceKey k) = true
  · rw [if_pos hc] at h
    cases h
  · rw [if_neg hc] at h ⊢
    cases h
    simp [hasNode, coerceKey, hasNodeKey]

/-- Witness for C10 at a concrete store and key. -/
theorem coerceKey_idempotent_and_addresses_witness :
    coerceKey (.str (coerceKey (.num 7))) = coerceKey (.num 7) ∧
    coerceKey (.str "plain") = "plain" ∧
    hasNode (addNode mixedSimpleStore (.num 7) []).2 (.str "7") = true :=
  coerceKey_idempotent_and_addresses (.num 7) "plain" mixedSimpleStore [] "7" (by rfl)

theorem adjustAt_nil (i : Nat) (a : Int) : adjustAt [] i a = [] := rfl

theorem adjustAt_cons_zero (x : Int) (t : List Int) (a : Int) :
    adjustAt (x :: t) 0 a = (x + a) :: t := rfl

theorem adjustAt_cons_succ (x : Int) (t : List Int) (i : Nat) (a : Int) :
    adjustAt (x :: t) (i + 1) a = x :: adjustAt t i a := rfl

theorem adjustAt_adjustAt (l : List Int) (i : Nat) (a b : Int) :
    adjustAt (adjustAt l i a) i b = adjustAt l i (a + b) := by
  induction l generalizing i with
  | nil => rfl
  | cons x t ih =>
    cases i with
    | zero =>
      rw [adjustAt_cons_zero, adjustAt_cons_zero, adjustAt_cons_zero, Int.add_assoc]
    | succ j =>
      rw [adjustAt_cons_succ, adjustAt_cons_succ, adjustAt_cons_succ, ih]

theorem adjustAt_zero_delta (l : List Int) (i : Nat) : adjustAt l i 0 = l := by
  induction l generalizing i with
  | nil => rfl
  | cons x t ih =>
    cases i with
    | zero => rw [adjustAt_cons_zero, Int.add_zero]
    | succ j => rw [adjustAt_cons_succ, ih]

theorem set_getD_self {α : Type} (l : List α) (n : Nat) (d : α) :
    l.set n (l.getD n d) = l := by
  induction l generalizing n with
  | nil => rfl
  | cons x t ih =>
    cases n with
    | zero => rfl
    | succ j =>
      show x :: t.set j (t.getD j d) = x :: t
      rw [ih]

theorem getD_set_self_lt {α : Type} (l : List α) (n : Nat) (v d : α)
    (h : n < l.length) : (l.set n v).getD n d = v := by
  induction l generalizing n with
  | nil => cases h
  | cons x t ih =>
    cases n with
    | zero => rfl
    | succ j =>
      show (t.set j v).getD j d = v
      exact ih j (Nat.lt_of_succ_lt_succ h)

theorem getD_set_ne {α : Type} (l : List α) (n j : Nat) (v d : α)
    (h : j ≠ n) : (l.set n v).getD j d = l.getD j d := by
  induction l generalizing n j with
  | nil => rfl
  | cons x t ih =>
    cases n with
    | zero =>
      cases j with
      | zero => exact absurd rfl h
      | succ j2 => rfl
    | succ n2 =>
      cases j with
      | zero => rfl
      | succ j2 =>
        show (t.set n2 v).getD j2 d = t.getD j2 d
        exact ih n2 j2 (fun hh => h (by rw [hh]))

theorem communityWeight_set_self (nb : List (List (Nat × Int)))
    (bel : List Nat) (n v c : Nat) :
    communityWeight nb (bel.set n v) n c = communityWeight nb bel n c := by
  unfold communityWeight
  congr 2
  apply List.filter_congr
  intro q _
  by_cases hq : q.1 = n
  · simp [hq]
  · rw [getD_set_ne bel n q.1 v 0 hq]

theorem undirected_moveNode_inverse (ix : UndirectedLouvainIndex) (n c : Nat)
    (h : n < ix.belongings.length) :
    (ix.moveNode n c).moveNode n (ix.belongings.getD n 0) = ix := by
  cases ix with
  | mk nb lp dg bel tw iw =>
    simp only at h
    unfold UndirectedLouvainIndex.moveNode
    simp only
    rw [getD_set_self_lt bel n c 0 h]
    rw [communityWeight_set_self, communityWeight_set_self]
    rw [List.set_set, set_getD_self]
    simp only [adjustAt_adjustAt, add_neg_cancel, neg_add_cancel, adjustAt_zero_delta]

theorem directed_moveNode_inverse (ix : DirectedLouvainIndex) (n c : Nat)
    (h : n < ix.belongings.length) :
    (ix.moveNode n c).moveNode n (ix.belongings.getD n 0) = ix := by
  cases ix with
  | mk onb inb lp din dout bel twin twout iw =>
    simp only at h
    unfold DirectedLouvainIndex.moveNode
    simp only
    rw [getD_set_self_lt bel n c 0 h]
    rw [communityWeight_set_self, communityWeight_set_self,
      communityWeight_set_self, communityWeight_set_self]
    rw [List.set_set, set_getD_self]
    simp only [adjustAt_adjustAt, add_neg_cancel, neg_add_cancel, adjustAt_zero_delta]

/-- C6: in both Community Structure Index variants, moving a node to
any community and then back to its original community restores the
whole index — in particular every per-community degree sum and internal
edge weight — to its state before the first move. -/
theorem moveNode_then_back_restores_sums
    (ixU : UndirectedLouvainIndex) (n c : Nat)
    (ixD : DirectedLouvainIndex) (n2 c2 : Nat)
    (hU : n < ixU.belongings.length) (hD : n2 < ixD.belongings.length) :
    ((ixU.moveNode n c).moveNode n (ixU.belongings.getD n 0) = ixU ∧
      ((ixU.moveNode n c).moveNode n
        (ixU.belongings.getD n 0)).totalWeights = ixU.totalWeights ∧
      ((ixU.moveNode n c).moveNode n
        (ixU.belongings.getD n 0)).internalWeights = ixU.internalWeights) ∧
    ((ixD.moveNode n2 c2).moveNode n2 (ixD.belongings.getD n2 0) = ixD ∧
      ((ixD.moveNode n2 c2).moveNode n2
        (ixD.belongings.getD n2 0)).totalInWeights = ixD.totalInWeights ∧
      ((ixD.moveNode n2 c2).moveNode n2
        (ixD.belongings.getD n2 0)).totalOutWeights = ixD.totalOutWeights ∧
      ((ixD.moveNode n2 c2).moveNode n2
        (ixD.belongings.getD n2 0)).internalWeights = ixD.internalWeights) := by
  have h1 := undirected_moveNode_inverse ixU n c hU
  have h2 := directed_moveNode_inverse ixD n2 c2 hD
  rw [h1, h2]
  exact ⟨⟨rfl, rfl, rfl⟩, rfl, rfl, rfl, rfl⟩

/-- Witness for C6 on two concrete singleton-community indices. -/
theorem moveNode_then_back_restores_sums_witness :
    ((smallUndirectedIndex.moveNode 0 1).moveNode 0
        (smallUndirectedIndex.belongings.getD 0 0) = smallUndirectedIndex ∧
      ((smallUndirectedIndex.moveNode 0 1).moveNode 0
        (smallUndirectedIndex.belongings.getD 0 0)).totalWeights =
        smallUndirectedIndex.totalWeights ∧
      ((smallUndirectedIndex.moveNode 0 1).moveNode 0
        (smallUndirectedIndex.belongings.getD 0 0)).internalWeights =
        smallUndirectedIndex.internalWeights) ∧
    ((smallDirectedIndex.moveNode 0 0).moveNode 0
        (smallDirectedIndex.belongings.getD 0 0) = smallDirectedIndex ∧
      ((smallDirectedIndex.moveNode 0 0).moveNode 0
        (smallDirectedIndex.belongings.getD 0 0)).totalInWeights =
        smallDirectedIndex.totalInWeights ∧
      ((smallDirectedIndex.moveNode 0 0).moveNode 0
        (smallDirectedIndex.belongings.getD 0 0)).totalOutWeights =
        smallDirectedIndex.totalOutWeights ∧
      ((smallDirectedIndex.moveNode 0 0).moveNode 0
        (smallDirectedIndex.belongings.getD 0 0)).internalWeights =
        smallDirectedIndex.internalWeights) :=
  moveNode_then_back_restores_sums smallUndirectedIndex 0 1
    smallDirectedIndex 0 0 (by decide) (by decide)

theorem find?_map_snd (m : List (String × String))
    (f : String × String → String) (x : String) :
    (m.map (fun p => (p.1, f p))).find? (fun p => p.1 == x) =
      (m.find? (fun p => p.1 == x)).map (fun p => (p.1, f p)) := by
  induction m with
  | nil => rfl
  | cons h t ih =>
    by_cases hh : (h.1 == x) = true
    · have h1 : List.find? (fun q => q.1 == x)
          ((h.1, f h) :: t.map (fun p => (p.1, f p))) = some (h.1, f h) :=
        List.find?_cons_of_pos _ (by simpa using hh)
      have h2 : List.find? (fun q => q.1 == x) (h :: t) = some h :=
        List.find?_cons_of_pos _ hh
      rw [List.map_cons, h1, h2]
      rfl
    · have h1 : List.find? (fun q => q.1 == x)
          ((h.1, f h) :: t.map (fun p => (p.1, f p))) =
          List.find? (fun q => q.1 == x) (t.map (fun p => (p.1, f p))) :=
        List.find?_cons_of_neg _ (by simpa using hh)
      have h2 : List.find? (fun q => q.1 == x) (h :: t) =
          List.find? (fun q => q.1 == x) t :=
        List.find?_cons_of_neg _ hh
      rw [List.map_cons, h1, h2]
      exact ih

theorem keyPresent_ufUnion (m : List (String × String)) (s t x : String) :
    keyPresent (ufUnion m s t) x ↔ keyPresent m x := by
  unfold ufUnion
  dsimp only
  split
  · exact Iff.rfl
  · unfold keyPresent
    rw [find?_map_snd]
    rcases m.find? (fun p => p.1 == x) with _ | p <;> simp

theorem ufFind_ufUnion_of_present (m : List (String × String)) (s t x : String)
    (h : keyPresent m x) :
    ufFind (ufUnion m s t) x =
      if ufFind m x == ufFind m s then ufFind m t else ufFind m x := by
  rcases hsome : m.find? (fun q => q.1 == x) with _ | p
  · unfold keyPresent at h
    rw [hsome] at h
    cases h
  have hfx : ufFind m x = p.2 := by
    unfold ufFind
    rw [hsome]
    rfl
  unfold ufUnion
  dsimp only
  split
  next heq =>
    have hst : ufFind m s = ufFind m t := by simpa using heq
    by_cases hc : (ufFind m x == ufFind m s) = true
    · rw [if_pos hc]
      have : ufFind m x = ufFind m s := by simpa using hc
      rw [this, hst]
    · rw [if_neg hc]
  next hne =>
    conv_lhs => unfold ufFind
    rw [find?_map_snd, hsome]
    rw [hfx]
    rfl

theorem ufUnion_merges (m : List (String × String)) (s t : String)
    (hs : keyPresent m s) (ht : keyPresent m t) :
    ufFind (ufUnion m s t) s = ufFind (ufUnion m s t) t := by
  rw [ufFind_ufUnion_of_present m s t s hs, ufFind_ufUnion_of_present m s t t ht]
  rw [if_pos (by simp)]
  by_cases h2 : (ufFind m t == ufFind m s) = true
  · rw [if_pos h2]
  · rw [if_neg h2]

theorem ufUnion_preserves_eq (m : List (String × String)) (s t u v : String)
    (h : ufFind m u = ufFind m v) (hu : keyPresent m u) (hv : keyPresent m v) :
    ufFind (ufUnion m s t) u = ufFind (ufUnion m s t) v := by
  rw [ufFind_ufUnion_of_present m s t u hu, ufFind_ufUnion_of_present m s t v hv, h]

theorem keyPresent_foldl (edges : List (String × Edge))
    (m : List (String × String)) (x : String) (h : keyPresent m x) :
    keyPresent (edges.foldl (fun m2 p => ufUnion m2 p.2.source p.2.target) m) x := by
  induction edges generalizing m with
  | nil => exact h
  | cons e rest ih =>
    exact ih _ ((keyPresent_ufUnion m e.2.source e.2.target x).mpr h)

theorem foldl_union_preserves_eq (edges : List (String × Edge))
    (m : List (String × String)) (u v : String)
    (h : ufFind m u = ufFind m v) (hu : keyPresent m u) (hv : keyPresent m v) :
    ufFind (edges.foldl (fun m2 p => ufUnion m2 p.2.source p.2.target) m) u =
      ufFind (edges.foldl (fun m2 p => ufUnion m2 p.2.source p.2.target) m) v := by
  induction edges generalizing m with
  | nil => exact h
  | cons e rest ih =>
    exact ih _ (ufUnion_preserves_eq m e.2.source e.2.target u v h hu hv)
      ((keyPresent_ufUnion m e.2.source e.2.target u).mpr hu)
      ((keyPresent_ufUnion m e.2.source e.2.target v).mpr hv)

theorem foldl_union_merges_edges (edges : List (String × Edge))
    (m : List (String × String))
    (hkeys : ∀ p ∈ edges, keyPresent m p.2.source ∧ keyPresent m p.2.target)
    (p : String × Edge) (hp : p ∈ edges) :
    ufFind (edges.foldl (fun m2 q => ufUnion m2 q.2.source q.2.target) m) p.2.source =
      ufFind (edges.foldl (fun m2 q => ufUnion m2 q.2.source q.2.target) m) p.2.target := by
  induction edges generalizing m with
  | nil => cases hp
  | cons e rest ih =>
    rcases List.mem_cons.mp hp with hp2 | hp2
    · subst hp2
      have hks := hkeys p (List.mem_cons_self p rest)
      exact foldl_union_preserves_eq rest _ _ _
        (ufUnion_merges m p.2.source p.2.target hks.1 hks.2)
        ((keyPresent_ufUnion m p.2.source p.2.target p.2.source).mpr hks.1)
        ((keyPresent_ufUnion m p.2.source p.2.target p.2.target).mpr hks.2)
    · apply ih _ ?_ hp2
      intro q hq
      have hks := hkeys q (List.mem_cons_of_mem e hq)
      exact ⟨(keyPresent_ufUnion m e.2.source e.2.target q.2.source).mpr hks.1,
        (keyPresent_ufUnion m e.2.source e.2.target q.2.target).mpr hks.2⟩

theorem keyPresent_ufInit (g : GraphStore) (x : String)
    (h : hasNodeKey g x = true) : keyPresent (ufInit g) x := by
  unfold keyPresent ufInit
  rw [List.find?_isSome]
  rcases (hasNodeKey_iff g x).mp h with ⟨p, hp, hpk⟩
  exact ⟨(p.1, p.1), List.mem_map_of_mem _ hp, by simpa using hpk⟩

theorem componentMap_edge_eq (g : GraphStore) (hnd : noDangling g = true)
    (p : String × Edge) (hp : p ∈ g.edges) :
    ufFind (componentMap g) p.2.source = ufFind (componentMap g) p.2.target := by
  unfold componentMap
  apply foldl_union_merges_edges g.edges (ufInit g) ?_ p hp
  intro q hq
  have hq2 := (noDangling_iff g).mp hnd q hq
  exact ⟨keyPresent_ufInit g q.2.source hq2.1, keyPresent_ufInit g q.2.target hq2.2⟩

/-- C7: the Connected Components Index ignores edge direction — in any
store without dangling edges, two node keys joined by a path of edges
of any directedness receive the same `componentOf` value. -/
theorem components_ignore_direction (g : GraphStore) (u v : String)
    (hnd : noDangling g = true) (hc : connectedIn g u v) :
    componentOf g (.str u) = componentOf g (.str v) := by
  show ufFind (componentMap g) u = ufFind (componentMap g) v
  induction hc with
  | refl => rfl
  | @tail b c _ hadj ih =>
    rcases hadj with ⟨p, hp, ⟨h1, h2⟩ | ⟨h1, h2⟩⟩
    · have hedge := componentMap_edge_eq g hnd p hp
      rw [ih, ← h1, hedge, h2]
    · have hedge := componentMap_edge_eq g hnd p hp
      rw [ih, ← h2, ← hedge, h1]

/-- Witness for C7: the spec scenario — nodes A, B, C with directed
edges from A to B and from B to C; A and C share a component. -/
theorem components_ignore_direction_witness :
    componentOf pathStoreABC (.str "A") = componentOf pathStoreABC (.str "C") :=
  components_ignore_direction pathStoreABC "A" "C" (by decide)
    (Relation.ReflTransGen.tail
      (Relation.ReflTransGen.single
        ⟨("e1", ⟨"A", "B", true, false, []⟩), by decide, Or.inl ⟨rfl, rfl⟩⟩)
      ⟨("e2", ⟨"B", "C", true, false, []⟩), by decide, Or.inl ⟨rfl, rfl⟩⟩)

end Graphology








